import Mathlib

/-!
Verification development for the quickfilter faceted-filtering engine.

The definitions below are a shallow embedding of the categorical filtering
core of `quickfilter.js` (the `Quickfilter` constructor, `_refresh`,
`_CategoricalUI` and its `makePredicate` / `refresh` / click handling), and
of the accent-folding table generator shipped with the project.  Objects are
identified by their index into the collection; facet values are strings;
the parsed saved state is a small JSON-like value type.
-/

/-- JSON-like values: the possible results of parsing the saved-state text. -/
inductive JVal where
  | null
  | bool (b : Bool)
  | num (n : Int)
  | str (s : String)
  | arr (elems : List JVal)
  | obj (fields : List (String × JVal))
deriving Repr

/-- Canonical array-index reading of a property key, as ECMAScript defines
it: a key addresses an element exactly when it is the canonical decimal
string of the index (so 0 does, while 00 and 01 do not). -/
def jsIndex (k : String) : Option Nat :=
  match k.toNat? with
  | some n => if toString n = k then some n else none
  | none => none

/-- Own properties of a JavaScript array: its elements under their canonical
index strings, and its length; every other key is undefined. -/
def jsArrGet (elems : List JVal) (k : String) : Option JVal :=
  match jsIndex k with
  | some n => elems[n]?
  | none => if k = "length" then some (.num (elems.length : Int)) else none

/-- Own properties of a JavaScript string: its single-character substrings
under their canonical index strings, and its length; every other key is
undefined. -/
def jsStrGet (s : String) (k : String) : Option JVal :=
  match jsIndex k with
  | some n => (s.toList[n]?).map (fun c => JVal.str (String.singleton c))
  | none => if k = "length" then some (.num (s.length : Int)) else none

/-- ECMAScript property read, as used on the parsed saved state.  Reading a
property of `undefined` (here `none`) or of `null` raises a TypeError
(`Except.error`); an object yields the field stored under the key; an array
or a string yields its indexed own properties and its length; numbers and
booleans have no own properties and yield `undefined`.  Prototype-inherited
members (such as toString) are not modelled: they are never booleans, so the
boolean-guarded reads of the program cannot observe them. -/
def jsGet : Option JVal → String → Except Unit (Option JVal)
  | none, _ => .error ()
  | some .null, _ => .error ()
  | some (.obj fields), k => .ok (fields.lookup k)
  | some (.arr elems), k => .ok (jsArrGet elems k)
  | some (.str str), k => .ok (jsStrGet str k)
  | some _, _ => .ok none

/-- The value the read `savedState[k]` yields when the saved state is not
null: the same own-property lookup as `jsGet`, without the TypeError
channel. -/
def svLookup : JVal → String → Option JVal
  | .obj fields, k => fields.lookup k
  | .arr elems, k => jsArrGet elems k
  | .str str, k => jsStrGet str k
  | _, _ => none

/-- One display row of a categorical filter: a facet value together with its
current selected and viable flags (quickfilter.js 637-641). -/
structure ValueRow where
  value : String
  selected : Bool
  viable : Bool
deriving Repr, DecidableEq

/-- The row state a click handler sees when its indices are out of range. -/
def defaultRow : ValueRow := { value := "", selected := false, viable := false }

/-- The runtime filter of a categorical facet (`Quickfilter._CategoricalUI`):
the cached per-object projected value sequences and the display rows. -/
structure CategoricalUI where
  objVals : List (List String)
  values : List ValueRow
deriving Repr, DecidableEq

instance : Inhabited CategoricalUI := ⟨{ objVals := [], values := [] }⟩

/-- A categorical facet configuration (`Quickfilter.Categorical`): a name, a
projection from objects to value sequences, and the initial-selection set. -/
structure Categorical (Obj : Type) where
  name : String
  proj : Obj → List String
  initial : List String

/-- Engine state: the object collection and one filter per facet. -/
structure Quickfilter (Obj : Type) where
  objects : List Obj
  filters : List CategoricalUI

/-- True when no value of the filter is selected (`_isPassAll`,
quickfilter.js 684-689). -/
def isPassAll (f : CategoricalUI) : Bool :=
  f.values.all (fun r => !r.selected)

/-- The selected values of a filter, as collected by `makePredicate`
(quickfilter.js 703-706). -/
def selValues (f : CategoricalUI) : List String :=
  (f.values.filter (fun r => r.selected)).map (fun r => r.value)

/-- Definition of `makePredicate` (quickfilter.js 695-717): in the pass-all state the
constant-true predicate; otherwise an object matches when its cached value
sequence intersects the selected-value set. -/
def makePredicate (f : CategoricalUI) : Nat → Bool :=
  if isPassAll f then fun _ => true
  else fun i => (f.objVals.getD i []).any (fun v => (selValues f).contains v)

/-- The per-object classification loop of `_refresh` (quickfilter.js
512-525): scan the predicates in filter order, remembering the last failed
filter index and the failure count, and stop as soon as two failures have
been seen. -/
def classifyGo (i : Nat) : List (Nat → Bool) → Nat → Option Nat → Nat → Option Nat × Nat
  | [], _, objMissed, nmissed => (objMissed, nmissed)
  | p :: ps, pi, objMissed, nmissed =>
    if 2 ≤ nmissed then (objMissed, nmissed)
    else if p i then classifyGo i ps (pi + 1) objMissed nmissed
    else classifyGo i ps (pi + 1) (some pi) (nmissed + 1)

/-- The (last failed filter, failure count) pair computed for one object by
the short-circuiting loop of `_refresh`. -/
def classifyShort (preds : List (Nat → Bool)) (i : Nat) : Option Nat × Nat :=
  classifyGo i preds 0 none 0

/-- The viable value set computed by `_CategoricalUI.refresh` (quickfilter.js
736-744): the union of the cached values of every object that is matched or
whose single miss is this filter (filters identified by index). -/
def viableValsOf (f : CategoricalUI) (fi : Nat) (matched : List Bool)
    (missed : List (Option Nat)) : List String :=
  ((List.range matched.length).filter
    (fun i => matched.getD i false || missed.getD i none == some fi)).flatMap
    (fun i => f.objVals.getD i [])

/-- Definition of `_CategoricalUI.refresh` (quickfilter.js 727-765): recompute each row's
viable flag; everything else in the row is left untouched. -/
def refreshUI (f : CategoricalUI) (fi : Nat) (matched : List Bool)
    (missed : List (Option Nat)) : CategoricalUI :=
  { f with values := f.values.map (fun r =>
      { r with viable := (viableValsOf f fi matched missed).contains r.value }) }

/-- The loop of `_refresh` over the filters, carrying the filter index. -/
def refreshFilters (matched : List Bool) (missed : List (Option Nat)) :
    List CategoricalUI → Nat → List CategoricalUI
  | [], _ => []
  | f :: fs, fi => refreshUI f fi matched missed :: refreshFilters matched missed fs (fi + 1)

/-- The predicate list built by `_refresh` (quickfilter.js 505-507). -/
def predsOf {Obj : Type} (qf : Quickfilter Obj) : List (Nat → Bool) :=
  qf.filters.map makePredicate

/-- The matched vector built by `_refresh` (quickfilter.js 510-522). -/
def matchedOf {Obj : Type} (qf : Quickfilter Obj) : List Bool :=
  (List.range qf.objects.length).map
    (fun i => (classifyShort (predsOf qf) i).2 == 0)

/-- The missed vector built by `_refresh` (quickfilter.js 511-524). -/
def missedOf {Obj : Type} (qf : Quickfilter Obj) : List (Option Nat) :=
  (List.range qf.objects.length).map
    (fun i =>
      if (classifyShort (predsOf qf) i).2 == 1 then (classifyShort (predsOf qf) i).1
      else none)

/-- Definition of `Quickfilter._refresh` (quickfilter.js 503-536): build one predicate per
filter, classify every object, refresh every filter UI, and return the new
engine state together with the two arguments passed to `onchange` (the
original object collection and the matched vector). -/
def qfRefresh {Obj : Type} (qf : Quickfilter Obj) :
    Quickfilter Obj × (List Obj × List Bool) :=
  ({ qf with filters := refreshFilters (matchedOf qf) (missedOf qf) qf.filters 0 },
   (qf.objects, matchedOf qf))

/-- Selected-state initialization of one value row (quickfilter.js 629-634):
the saved entry is read inside try/catch and used only when it is a boolean;
otherwise membership in the facet's initial-selection set decides. -/
def initSelected (savedState : Option JVal) (initial : List String) (v : String) : Bool :=
  match jsGet savedState v with
  | .ok (some (.bool b)) => b
  | _ => initial.contains v

/-- Construction of `Quickfilter._CategoricalUI` (quickfilter.js 593-655):
cache the projected value sequences, build the sorted distinct display
domain, and initialize each row's selected flag. -/
def mkCategoricalUI {Obj : Type} (facet : Categorical Obj) (objects : List Obj)
    (savedState : Option JVal) : CategoricalUI :=
  let objVals := objects.map facet.proj
  let vals := (objVals.flatten.dedup).insertionSort (fun a b => a ≤ b)
  { objVals := objVals
    values := vals.map (fun v =>
      { value := v, selected := initSelected savedState facet.initial v, viable := true }) }

/-- The `Quickfilter` constructor (quickfilter.js 475-497).  `parsed` is the
result of `parseJSON` on the state box: `none` when parsing threw (the saved
state stays the empty object), otherwise the parsed value.  The per-facet
read `savedState[facet.name]` is not guarded by try/catch, so a parsed
top-level null raises a TypeError.  The constructor ends with an initial
refresh. -/
def mkQuickfilter {Obj : Type} (objects : List Obj) (facets : List (Categorical Obj))
    (parsed : Option JVal) : Except Unit (Quickfilter Obj) := do
  let savedState := parsed.getD (.obj [])
  let filters ← facets.mapM (fun f => do
    let fsv ← jsGet (some savedState) f.name
    pure (mkCategoricalUI f objects fsv))
  pure (qfRefresh { objects := objects, filters := filters }).1

/-- Toggle the selected flag of the row at the given position. -/
def toggleValues : List ValueRow → Nat → List ValueRow
  | [], _ => []
  | r :: rs, 0 => { r with selected := !r.selected } :: rs
  | r :: rs, n + 1 => r :: toggleValues rs n

/-- The click handler of a value row (quickfilter.js 645-653): ignored when
the row is not viable; otherwise it toggles exactly that row's selection and
triggers a refresh. -/
def clickRow {Obj : Type} (qf : Quickfilter Obj) (fi vi : Nat) : Quickfilter Obj :=
  let f := qf.filters.getD fi default
  let r := f.values.getD vi defaultRow
  if !r.viable then qf
  else (qfRefresh { qf with
    filters := qf.filters.set fi { f with values := toggleValues f.values vi } }).1

/-- Spec-side failure count: the number of filters whose predicate fails for
object `i`, with every predicate evaluated. -/
def failCountSpec (preds : List (Nat → Bool)) (i : Nat) : Nat :=
  (preds.filter (fun p => !(p i))).length

/-- Spec-side matched flag: no predicate fails, every predicate evaluated. -/
def matchedSpec (preds : List (Nat → Bool)) (i : Nat) : Bool :=
  preds.all (fun p => p i)

/-- Spec-side single-miss attribution: when exactly one predicate fails, the
index of that unique predicate; otherwise no attribution. -/
def missedSpec (preds : List (Nat → Bool)) (i : Nat) : Option Nat :=
  if failCountSpec preds i = 1 then some (preds.findIdx (fun p => !(p i))) else none

/-- The predicate at a filter index; out-of-range indices never fail. -/
def predAt (preds : List (Nat → Bool)) (k i : Nat) : Bool :=
  (preds.getD k (fun _ => true)) i

/-- Spec-side reading of one saved boolean: follow the own-property reads
from the parsed state through the facet name and then through the facet
value — object fields and array or string indexed entries alike — and keep
the result exactly when both reads land on a boolean.  Any other outcome
(absent facet entry, null facet entry, absent value entry, non-boolean
entry) yields nothing. -/
def savedBoolAt (sv : JVal) (facetName v : String) : Option Bool :=
  match svLookup sv facetName with
  | some inner =>
    match svLookup inner v with
    | some (.bool b) => some b
    | _ => none
  | none => none

/-- Modelled from the spec: the Unicode character data that the accent-fold
table generator reads through Python's `unicodedata` module, which is not
part of src/ — whether a code point is a combining mark, whether it is a
lowercase letter, and its NFKD decomposition. -/
structure UnicodeData where
  combining : Nat → Bool
  islower : Nat → Bool
  nfkd : Nat → List Nat

/-- NFKD decomposition with the combining marks stripped (part_000 144-146). -/
def strippedNFKD (u : UnicodeData) (ch : Nat) : List Nat :=
  (u.nfkd ch).filter (fun c => !u.combining c)

/-- ASCII letter test, as `ord(stripped) < 128 and stripped.isalpha()`. -/
def isAsciiAlpha (c : Nat) : Bool :=
  decide ((65 ≤ c ∧ c ≤ 90) ∨ (97 ≤ c ∧ c ≤ 122))

/-- Lower-casing of a single ASCII letter, as Python's `str.lower` acts on
the stripped single-letter string. -/
def asciiToLower (c : Nat) : Nat :=
  if 65 ≤ c ∧ c ≤ 90 then c + 32 else c

/-- The table key the generator files code point `ch` under (part_000
128-151): combining marks go to the empty-string row; a lowercase letter
whose stripped NFKD is a single ASCII letter different from the original
goes under that letter; everything else is left out of the table. -/
def genTarget (u : UnicodeData) (ch : Nat) : Option String :=
  if u.combining ch then some ""
  else if !u.islower ch then none
  else
    match strippedNFKD u ch with
    | [c] =>
      if ch ≠ c ∧ isAsciiAlpha c then
        some (String.singleton (Char.ofNat (asciiToLower c)))
      else none
    | _ => none

/-- The ascending original code points collected for one table key: the
generator scans code points 1 to 0xFFFF and Python sorts each set
(part_000 128, 180). -/
def origsFor (u : UnicodeData) (key : String) : List Nat :=
  ((List.range 0x10000).drop 1).filter (fun ch => genTarget u ch == some key)

/-- The sorted list of keys of `stripped_to_origs` (part_000 180-181). -/
def genKeys (u : UnicodeData) : List String :=
  ((((List.range 0x10000).drop 1).filterMap (genTarget u)).dedup).insertionSort
    (fun a b => a ≤ b)

/-- The generator's `delta` (part_000 156-161): each value minus its
predecessor, starting from 0. -/
def deltaEnc : Nat → List Nat → List Int
  | _, [] => []
  | prev, v :: vs => ((v : Int) - (prev : Int)) :: deltaEnc v vs

/-- The generator's `rle` (part_000 162-176): a run of more than two equal
values is emitted as the value followed by the negated run length; shorter
runs are emitted literally. -/
def rleEnc : List Int → List Int
  | [] => []
  | x :: xs =>
    let k := (xs.takeWhile (fun y => y == x)).length
    if k + 1 > 2 then x :: (-((k : Int) + 1)) :: rleEnc (xs.drop k)
    else x :: rleEnc xs
termination_by l => l.length
decreasing_by
  all_goals simp only [List.length_cons, List.length_drop]
  · omega
  · omega

/-- The delta sequence the generated JS decoder pushes (part_000 188-194):
a non-negative entry is pushed literally; a negative entry `-n` repeats the
preceding entry while being incremented up to 0, after which the 0 itself is
pushed as well. -/
def jsDecodeDeltas : Int → List Int → List Int
  | _, [] => []
  | prev, c :: rest =>
    if 0 ≤ c then c :: jsDecodeDeltas c rest
    else List.replicate (-c).toNat prev ++ 0 :: jsDecodeDeltas 0 rest

/-- The decoder's prefix-sum pass (part_000 195-196). -/
def cumsum : Int → List Int → List Int
  | _, [] => []
  | acc, d :: ds => (acc + d) :: cumsum (acc + d) ds

/-- The code points one encoded table row decodes to in the generated JS. -/
def decodeRow (enc : List Int) : List Int :=
  cumsum 0 (jsDecodeDeltas 0 enc)

/-- The canonicalization entry the generated JS fold function ends up with
for code point `ch`: rows are processed in key order and later assignments
to `canon` overwrite earlier ones (part_000 197-201). -/
def canonOf (u : UnicodeData) (ch : Nat) : Option String :=
  (genKeys u).foldl
    (fun acc key =>
      if (decodeRow (rleEnc (deltaEnc 0 (origsFor u key)))).contains (ch : Int) then
        some key
      else acc)
    none

/-- The generated `accentFold` function (part_000 178-207) on a string given
as its code-point sequence: every character with a `canon` entry is replaced
by that entry, all other characters pass through. -/
def accentFold (u : UnicodeData) (s : List Nat) : List Nat :=
  s.flatMap (fun ch =>
    match canonOf u ch with
    | some key => key.toList.map (fun c => c.toNat)
    | none => [ch])

/-- Modelled from the spec: concrete `unicodedata` facts for the code points
exercised below, following spec section 4.1 and the Unicode character
database — the combining marks U+0300-U+0304, U+0308 and U+030A, the
lowercase letters à á â ã ä å (U+00E0-U+00E5) and ā (U+0101), which
decompose under NFKD to the letter a followed by one combining mark, and
è é ê ë (U+00E8-U+00EB), which decompose to the letter e followed by one
combining mark. -/
def miniUD : UnicodeData where
  combining := fun ch => [768, 769, 770, 771, 772, 776, 778].contains ch
  islower := fun ch =>
    [224, 225, 226, 227, 228, 229, 257, 232, 233, 234, 235].contains ch
  nfkd := fun ch =>
    if ch == 224 then [97, 768]
    else if ch == 225 then [97, 769]
    else if ch == 226 then [97, 770]
    else if ch == 227 then [97, 771]
    else if ch == 228 then [97, 776]
    else if ch == 229 then [97, 778]
    else if ch == 257 then [97, 772]
    else if ch == 232 then [101, 768]
    else if ch == 233 then [101, 769]
    else if ch == 234 then [101, 770]
    else if ch == 235 then [101, 776]
    else [ch]

theorem failCountSpec_nil (i : Nat) : failCountSpec [] i = 0 := rfl

theorem failCountSpec_cons (p : Nat → Bool) (ps : List (Nat → Bool)) (i : Nat) :
    failCountSpec (p :: ps) i = (if p i then 0 else 1) + failCountSpec ps i := by
  by_cases hp : p i
  · simp [failCountSpec, List.filter_cons, hp]
  · simp [failCountSpec, List.filter_cons, hp]
    rw [Nat.add_comm]

theorem classifyGo_of_two (i : Nat) (ps : List (Nat → Bool)) (pi : Nat)
    (om : Option Nat) (nm : Nat) (h : 2 ≤ nm) :
    classifyGo i ps pi om nm = (om, nm) := by
  cases ps with
  | nil => rfl
  | cons p ps => simp [classifyGo, h]

theorem classifyGo_snd (i : Nat) (ps : List (Nat → Bool)) :
    ∀ pi om nm, nm ≤ 2 →
      (classifyGo i ps pi om nm).2 = min (nm + failCountSpec ps i) 2 := by
  induction ps with
  | nil =>
    intro pi om nm h
    simp only [classifyGo, failCountSpec_nil]
    omega
  | cons p ps ih =>
    intro pi om nm h
    rw [failCountSpec_cons]
    by_cases h2 : 2 ≤ nm
    · rw [classifyGo_of_two i (p :: ps) pi om nm h2]
      show nm = min (nm + ((if p i then 0 else 1) + failCountSpec ps i)) 2
      have hnm : nm = 2 := by omega
      subst hnm
      by_cases hp : p i
      · rw [if_pos hp]; omega
      · rw [if_neg hp]; omega
    · by_cases hp : p i
      · simp only [classifyGo, if_neg h2, if_pos hp]
        rw [ih (pi + 1) om nm h]
        omega
      · simp only [classifyGo, if_neg h2, if_neg hp]
        rw [ih (pi + 1) (some pi) (nm + 1) (by omega)]
        omega

theorem classifyGo_count_zero (i : Nat) (ps : List (Nat → Bool)) :
    ∀ pi om nm, failCountSpec ps i = 0 →
      classifyGo i ps pi om nm = (om, nm) := by
  induction ps with
  | nil => intro pi om nm _; rfl
  | cons p ps ih =>
    intro pi om nm hc
    rw [failCountSpec_cons] at hc
    by_cases hp : p i
    · by_cases h2 : 2 ≤ nm
      · exact classifyGo_of_two i (p :: ps) pi om nm h2
      · simp only [classifyGo, if_neg h2, if_pos hp]
        exact ih (pi + 1) om nm (by omega)
    · simp [hp] at hc

theorem classifyGo_count_one (i : Nat) (ps : List (Nat → Bool)) :
    ∀ pi om, failCountSpec ps i = 1 →
      classifyGo i ps pi om 0 =
        (some (pi + ps.findIdx (fun p => !(p i))), 1) := by
  induction ps with
  | nil => intro pi om hc; simp [failCountSpec_nil] at hc
  | cons p ps ih =>
    intro pi om hc
    rw [failCountSpec_cons] at hc
    have h20 : ¬ (2 : Nat) ≤ 0 := by omega
    by_cases hp : p i
    · simp only [classifyGo, if_neg h20, if_pos hp]
      rw [ih (pi + 1) om (by simpa [hp] using hc)]
      have hfind : List.findIdx (fun p => !(p i)) (p :: ps) =
          List.findIdx (fun p => !(p i)) ps + 1 := by
        simp [List.findIdx_cons, hp]
      rw [hfind, Nat.add_assoc, Nat.add_comm 1 (List.findIdx (fun p => !(p i)) ps)]
    · have hrest : failCountSpec ps i = 0 := by simp [hp] at hc; omega
      simp only [classifyGo, if_neg h20, if_neg hp]
      rw [classifyGo_count_zero i ps (pi + 1) (some pi) 1 hrest]
      have hfind : List.findIdx (fun p => !(p i)) (p :: ps) = 0 := by
        simp [List.findIdx_cons, hp]
      rw [hfind]
      simp

theorem classifyShort_snd (preds : List (Nat → Bool)) (i : Nat) :
    (classifyShort preds i).2 = min (failCountSpec preds i) 2 := by
  unfold classifyShort
  rw [classifyGo_snd i preds 0 none 0 (Nat.zero_le 2)]
  omega

theorem failCountSpec_eq_zero_iff (ps : List (Nat → Bool)) (i : Nat) :
    failCountSpec ps i = 0 ↔ matchedSpec ps i = true := by
  induction ps with
  | nil => simp [failCountSpec_nil, matchedSpec]
  | cons p ps ih =>
    rw [failCountSpec_cons]
    by_cases hp : p i
    · simpa [matchedSpec, hp] using ih
    · simp [matchedSpec, hp]

theorem classifyShort_matched (preds : List (Nat → Bool)) (i : Nat) :
    ((classifyShort preds i).2 == 0) = matchedSpec preds i := by
  rw [Bool.eq_iff_iff, beq_iff_eq, classifyShort_snd]
  constructor
  · intro h
    exact (failCountSpec_eq_zero_iff preds i).mp (by omega)
  · intro h
    have := (failCountSpec_eq_zero_iff preds i).mpr h
    omega

theorem classifyShort_missed (preds : List (Nat → Bool)) (i : Nat) :
    (if (classifyShort preds i).2 == 1 then (classifyShort preds i).1 else none) =
      missedSpec preds i := by
  have hsnd := classifyShort_snd preds i
  rcases hc : failCountSpec preds i with _ | n
  · rw [hc] at hsnd
    simp only [Nat.zero_min, Nat.min_zero] at hsnd
    have h0 : (classifyShort preds i).2 = 0 := by omega
    simp [h0, missedSpec, hc]
  · rcases n with _ | m
    · unfold classifyShort at hsnd ⊢
      rw [classifyGo_count_one i preds 0 none hc]
      simp [missedSpec, hc]
    · rw [hc] at hsnd
      have h2 : (classifyShort preds i).2 = 2 := by omega
      simp [h2, missedSpec, hc]

theorem predAt_cons_zero (p : Nat → Bool) (ps : List (Nat → Bool)) (i : Nat) :
    predAt (p :: ps) 0 i = p i := rfl

theorem predAt_cons_succ (p : Nat → Bool) (ps : List (Nat → Bool)) (k i : Nat) :
    predAt (p :: ps) (k + 1) i = predAt ps k i := rfl

theorem failCountSpec_zero_iff_idx (ps : List (Nat → Bool)) (i : Nat) :
    failCountSpec ps i = 0 ↔ ∀ pj, pj < ps.length → predAt ps pj i = true := by
  induction ps with
  | nil => simp [failCountSpec_nil]
  | cons p ps ih =>
    rw [failCountSpec_cons]
    by_cases hp : p i
    · rw [if_pos hp, Nat.zero_add, ih]
      constructor
      · intro h pj hpj
        cases pj with
        | zero => rw [predAt_cons_zero]; exact hp
        | succ k =>
          rw [predAt_cons_succ]
          exact h k (Nat.lt_of_succ_lt_succ (by simpa using hpj))
      · intro h pj hpj
        have := h (pj + 1) (by simpa using Nat.succ_lt_succ hpj)
        rwa [predAt_cons_succ] at this
    · rw [if_neg hp]
      constructor
      · intro h
        simp at h
      · intro h
        have := h 0 (by simp)
        rw [predAt_cons_zero] at this
        exact absurd this hp

theorem missedSpec_eq_some_iff (ps : List (Nat → Bool)) (i : Nat) :
    ∀ fi, fi < ps.length →
      (missedSpec ps i = some fi ↔
        (predAt ps fi i = false ∧
         ∀ pj, pj < ps.length → pj ≠ fi → predAt ps pj i = true)) := by
  induction ps with
  | nil => intro fi hfi; simp at hfi
  | cons p ps ih =>
    intro fi hfi
    by_cases hp : p i
    · have hcnt : failCountSpec (p :: ps) i = failCountSpec ps i := by
        rw [failCountSpec_cons, if_pos hp, Nat.zero_add]
      have hfind : List.findIdx (fun q => !(q i)) (p :: ps) =
          List.findIdx (fun q => !(q i)) ps + 1 := by
        simp [List.findIdx_cons, hp]
      cases fi with
      | zero =>
        constructor
        · intro h
          exfalso
          unfold missedSpec at h
          rw [hcnt] at h
          by_cases hc : failCountSpec ps i = 1
          · rw [if_pos hc, hfind] at h
            simp at h
          · rw [if_neg hc] at h
            simp at h
        · intro h
          rw [predAt_cons_zero] at h
          exact absurd h.1 (by simp [hp])
      | succ k =>
        have hk : k < ps.length := Nat.lt_of_succ_lt_succ (by simpa using hfi)
        have hiff := ih k hk
        constructor
        · intro h
          unfold missedSpec at h
          rw [hcnt] at h
          by_cases hc : failCountSpec ps i = 1
          · rw [if_pos hc, hfind] at h
            have hkk : List.findIdx (fun q => !(q i)) ps = k :=
              Nat.succ.inj (Option.some.inj h)
            have hms : missedSpec ps i = some k := by
              unfold missedSpec
              rw [if_pos hc, hkk]
            have hr := hiff.mp hms
            refine ⟨by rw [predAt_cons_succ]; exact hr.1, ?_⟩
            intro pj hpj hne
            cases pj with
            | zero => rw [predAt_cons_zero]; exact hp
            | succ j =>
              rw [predAt_cons_succ]
              exact hr.2 j (Nat.lt_of_succ_lt_succ (by simpa using hpj))
                (fun hjk => hne (by rw [hjk]))
          · rw [if_neg hc] at h
            simp at h
        · intro h
          have h1 := h.1
          rw [predAt_cons_succ] at h1
          have hms : missedSpec ps i = some k := by
            apply hiff.mpr
            refine ⟨h1, ?_⟩
            intro j hj hjk
            have := h.2 (j + 1) (by simpa using Nat.succ_lt_succ hj)
              (fun heq => hjk (Nat.succ.inj heq))
            rwa [predAt_cons_succ] at this
          unfold missedSpec at hms ⊢
          rw [hcnt]
          by_cases hc : failCountSpec ps i = 1
          · rw [if_pos hc] at hms ⊢
            rw [hfind, Option.some.inj hms]
          · rw [if_neg hc] at hms
            simp at hms
    · have hcnt : failCountSpec (p :: ps) i = 1 + failCountSpec ps i := by
        rw [failCountSpec_cons, if_neg hp]
      have hfind0 : List.findIdx (fun q => !(q i)) (p :: ps) = 0 := by
        simp [List.findIdx_cons, hp]
      cases fi with
      | zero =>
        constructor
        · intro h
          unfold missedSpec at h
          by_cases hc : failCountSpec (p :: ps) i = 1
          · have hrest : failCountSpec ps i = 0 := by
              rw [hcnt] at hc
              have hc' : 1 + failCountSpec ps i = 1 + 0 := by
                rw [Nat.add_zero]
                exact hc
              exact Nat.add_left_cancel hc'
            refine ⟨by rw [predAt_cons_zero]; simp [hp], ?_⟩
            intro pj hpj hne
            cases pj with
            | zero => exact absurd rfl hne
            | succ j =>
              rw [predAt_cons_succ]
              exact (failCountSpec_zero_iff_idx ps i).mp hrest j
                (Nat.lt_of_succ_lt_succ (by simpa using hpj))
          · rw [if_neg hc] at h
            simp at h
        · intro h
          have hrest : failCountSpec ps i = 0 := by
            apply (failCountSpec_zero_iff_idx ps i).mpr
            intro j hj
            have := h.2 (j + 1) (by simpa using Nat.succ_lt_succ hj)
              (Nat.succ_ne_zero j)
            rwa [predAt_cons_succ] at this
          unfold missedSpec
          rw [hcnt, hrest, hfind0]
          simp
      | succ k =>
        constructor
        · intro h
          unfold missedSpec at h
          by_cases hc : failCountSpec (p :: ps) i = 1
          · rw [if_pos hc, hfind0] at h
            simp at h
          · rw [if_neg hc] at h
            simp at h
        · intro h
          have := h.2 0 (by simp) (Ne.symm (Nat.succ_ne_zero k))
          rw [predAt_cons_zero] at this
          exact absurd this hp

theorem getD_map_range {α : Type} (f : Nat → α) (n i : Nat) (d : α) :
    (((List.range n).map f).getD i d) = if i < n then f i else d := by
  rw [List.getD_eq_getElem?_getD, List.getElem?_map]
  by_cases h : i < n
  · rw [List.getElem?_range h]
    simp [h]
  · rw [List.getElem?_eq_none (by simpa using Nat.le_of_not_lt h)]
    simp [h]

theorem refreshFilters_length (m : List Bool) (ms : List (Option Nat)) :
    ∀ (fs : List CategoricalUI) (k : Nat), (refreshFilters m ms fs k).length = fs.length := by
  intro fs
  induction fs with
  | nil => intro k; rfl
  | cons f fs ih => intro k; simp [refreshFilters, ih]

theorem refreshFilters_getD (m : List Bool) (ms : List (Option Nat)) :
    ∀ (fs : List CategoricalUI) (k fi : Nat),
      (refreshFilters m ms fs k).getD fi default =
        if fi < fs.length then refreshUI (fs.getD fi default) (k + fi) m ms
        else default := by
  intro fs
  induction fs with
  | nil => intro k fi; simp [refreshFilters]
  | cons f fs ih =>
    intro k fi
    cases fi with
    | zero => simp [refreshFilters]
    | succ j =>
      simp only [refreshFilters, List.getD_cons_succ, List.length_cons]
      rw [ih (k + 1) j]
      by_cases hj : j < fs.length
      · rw [if_pos hj, if_pos (Nat.succ_lt_succ hj)]
        rw [Nat.add_assoc, Nat.add_comm 1 j]
      · rw [if_neg hj, if_neg (fun hcon => hj (Nat.lt_of_succ_lt_succ hcon))]

theorem refreshUI_objVals (f : CategoricalUI) (fi : Nat) (m : List Bool)
    (ms : List (Option Nat)) : (refreshUI f fi m ms).objVals = f.objVals := rfl

theorem selValues_refreshUI (f : CategoricalUI) (fi : Nat) (m : List Bool)
    (ms : List (Option Nat)) : selValues (refreshUI f fi m ms) = selValues f := by
  unfold selValues refreshUI
  rw [List.filter_map, List.map_map]
  rfl

theorem isPassAll_refreshUI (f : CategoricalUI) (fi : Nat) (m : List Bool)
    (ms : List (Option Nat)) : isPassAll (refreshUI f fi m ms) = isPassAll f := by
  unfold isPassAll refreshUI
  rw [List.all_map]
  rfl

theorem makePredicate_refreshUI (f : CategoricalUI) (fi : Nat) (m : List Bool)
    (ms : List (Option Nat)) : makePredicate (refreshUI f fi m ms) = makePredicate f := by
  unfold makePredicate
  simp only [isPassAll_refreshUI, selValues_refreshUI, refreshUI_objVals]

theorem refreshUI_idem (f : CategoricalUI) (fi : Nat) (m : List Bool)
    (ms : List (Option Nat)) :
    refreshUI (refreshUI f fi m ms) fi m ms = refreshUI f fi m ms := by
  simp only [refreshUI, List.map_map]
  rfl

theorem refreshUI_shape (f : CategoricalUI) (fi : Nat) (m : List Bool)
    (ms : List (Option Nat)) :
    (refreshUI f fi m ms).values.map (fun r => (r.value, r.selected)) =
      f.values.map (fun r => (r.value, r.selected)) := by
  simp only [refreshUI, List.map_map]
  rfl

theorem qfRefresh_fst_objects {Obj : Type} (qf : Quickfilter Obj) :
    (qfRefresh qf).1.objects = qf.objects := rfl

theorem qfRefresh_fst_filters {Obj : Type} (qf : Quickfilter Obj) :
    (qfRefresh qf).1.filters =
      refreshFilters (matchedOf qf) (missedOf qf) qf.filters 0 := rfl

theorem refreshFilters_map_makePredicate (m : List Bool) (ms : List (Option Nat)) :
    ∀ (fs : List CategoricalUI) (k : Nat),
      (refreshFilters m ms fs k).map makePredicate = fs.map makePredicate := by
  intro fs
  induction fs with
  | nil => intro k; rfl
  | cons f fs ih =>
    intro k
    simp only [refreshFilters, List.map_cons, makePredicate_refreshUI, ih]

theorem predsOf_qfRefresh {Obj : Type} (qf : Quickfilter Obj) :
    predsOf (qfRefresh qf).1 = predsOf qf := by
  unfold predsOf
  rw [qfRefresh_fst_filters, refreshFilters_map_makePredicate]

theorem matchedOf_qfRefresh {Obj : Type} (qf : Quickfilter Obj) :
    matchedOf (qfRefresh qf).1 = matchedOf qf := by
  unfold matchedOf
  simp only [predsOf_qfRefresh, qfRefresh_fst_objects]

theorem missedOf_qfRefresh {Obj : Type} (qf : Quickfilter Obj) :
    missedOf (qfRefresh qf).1 = missedOf qf := by
  unfold missedOf
  simp only [predsOf_qfRefresh, qfRefresh_fst_objects]

theorem refreshFilters_idem (m : List Bool) (ms : List (Option Nat)) :
    ∀ (fs : List CategoricalUI) (k : Nat),
      refreshFilters m ms (refreshFilters m ms fs k) k = refreshFilters m ms fs k := by
  intro fs
  induction fs with
  | nil => intro k; rfl
  | cons f fs ih =>
    intro k
    simp only [refreshFilters, refreshUI_idem, ih]

/-- The selected flag of the row at filter index `a`, row index `b`. -/
def selectedAt {Obj : Type} (qf : Quickfilter Obj) (a b : Nat) : Bool :=
  ((qf.filters.getD a default).values.getD b defaultRow).selected

theorem getD_values_map_viable (l : List ValueRow) (c : String → Bool) :
    ∀ b, ((l.map (fun r => { r with viable := c r.value })).getD b defaultRow).selected
      = (l.getD b defaultRow).selected := by
  induction l with
  | nil => intro b; rfl
  | cons r rs ih =>
    intro b
    cases b with
    | zero => rfl
    | succ j => exact ih j

theorem selectedAt_qfRefresh {Obj : Type} (qf : Quickfilter Obj) (a b : Nat) :
    selectedAt (qfRefresh qf).1 a b = selectedAt qf a b := by
  unfold selectedAt
  rw [qfRefresh_fst_filters, refreshFilters_getD]
  by_cases ha : a < qf.filters.length
  · rw [if_pos ha]
    exact getD_values_map_viable _ _ b
  · rw [if_neg ha, List.getD_eq_default qf.filters default (Nat.le_of_not_lt ha)]

theorem toggleValues_getD :
    ∀ (l : List ValueRow) (vi vj : Nat),
      (toggleValues l vi).getD vj defaultRow =
        if vj = vi ∧ vi < l.length then
          { l.getD vj defaultRow with selected := !(l.getD vj defaultRow).selected }
        else l.getD vj defaultRow := by
  intro l
  induction l with
  | nil =>
    intro vi vj
    simp [toggleValues]
  | cons r rs ih =>
    intro vi vj
    cases vi with
    | zero =>
      cases vj with
      | zero => simp [toggleValues]
      | succ j => simp [toggleValues]
    | succ k =>
      cases vj with
      | zero => simp [toggleValues]
      | succ j =>
        have hL : (toggleValues (r :: rs) (k + 1)).getD (j + 1) defaultRow =
            (toggleValues rs k).getD j defaultRow := rfl
        rw [hL, ih k j]
        by_cases hjk : j = k
        · subst hjk
          by_cases hk : j < rs.length
          · rw [if_pos ⟨rfl, hk⟩, if_pos ⟨rfl, by simpa using Nat.succ_lt_succ hk⟩]
            rfl
          · rw [if_neg (fun hcon => hk hcon.2),
              if_neg (fun hcon => hk (Nat.lt_of_succ_lt_succ (by simpa using hcon.2)))]
            rfl
        · rw [if_neg (fun hcon => hjk hcon.1),
            if_neg (fun hcon => hjk (Nat.succ.inj hcon.1))]
          rfl

theorem jsGet_of_ne_null (sv : JVal) (h : sv ≠ .null) (k : String) :
    jsGet (some sv) k = .ok (svLookup sv k) := by
  cases sv with
  | null => exact absurd rfl h
  | bool b => rfl
  | num n => rfl
  | str s => rfl
  | arr es => rfl
  | obj fs => rfl

theorem mapM_filters_ok {Obj : Type} (objects : List Obj) (sv : JVal) (h : sv ≠ .null)
    (facets : List (Categorical Obj)) :
    (facets.mapM (fun f => do
      let fsv ← jsGet (some sv) f.name
      pure (mkCategoricalUI f objects fsv))
      : Except Unit (List CategoricalUI)) =
    .ok (facets.map (fun f => mkCategoricalUI f objects (svLookup sv f.name))) := by
  induction facets with
  | nil => rfl
  | cons f fs ih =>
    rw [List.mapM_cons, jsGet_of_ne_null sv h, ih]
    rfl

theorem mkQuickfilter_ok {Obj : Type} (objects : List Obj)
    (facets : List (Categorical Obj)) (parsed : Option JVal)
    (h : parsed.getD (.obj []) ≠ .null) :
    mkQuickfilter objects facets parsed =
      .ok (qfRefresh
        { objects := objects
          filters := facets.map (fun f =>
            mkCategoricalUI f objects (svLookup (parsed.getD (.obj [])) f.name)) }).1 := by
  simp only [mkQuickfilter]
  rw [mapM_filters_ok objects (parsed.getD (.obj [])) h facets]
  rfl

theorem mkCategoricalUI_domain {Obj : Type} (facet : Categorical Obj)
    (objects : List Obj) (sv : Option JVal) :
    (mkCategoricalUI facet objects sv).values.map (fun r => r.value) =
      ((objects.map facet.proj).flatten.dedup).insertionSort (fun a b => a ≤ b) := by
  unfold mkCategoricalUI
  rw [List.map_map]
  exact List.map_id' _

theorem mkCategoricalUI_selected {Obj : Type} (facet : Categorical Obj)
    (objects : List Obj) (sv : Option JVal) :
    ∀ r ∈ (mkCategoricalUI facet objects sv).values,
      r.selected = initSelected sv facet.initial r.value := by
  intro r hr
  unfold mkCategoricalUI at hr
  rw [List.mem_map] at hr
  obtain ⟨v, hv, rfl⟩ := hr
  rfl

theorem initSelected_spec (sv : JVal) (facetName : String) (initial : List String)
    (v : String) :
    initSelected (svLookup sv facetName) initial v =
      (savedBoolAt sv facetName v).getD (initial.contains v) := by
  unfold savedBoolAt
  cases hsv : svLookup sv facetName with
  | none => simp [initSelected, jsGet]
  | some inner =>
    by_cases hnull : inner = JVal.null
    · subst hnull
      simp [initSelected, jsGet, svLookup]
    · unfold initSelected
      rw [jsGet_of_ne_null inner hnull v]
      cases hj : svLookup inner v with
      | none => simp [hj]
      | some jv => cases jv <;> simp [hj]

theorem range_drop_one (N : Nat) : (List.range N).drop 1 = List.range' 1 (N - 1) := by
  cases N with
  | zero => rfl
  | succ n =>
    rw [List.range_eq_range', List.range'_succ]
    rfl

theorem filter_range'_support (p : Nat → Bool) (S : List Nat) (s n : Nat)
    (hSsort : List.Pairwise (fun a b => a < b) S)
    (hmem : ∀ ch, p ch = true ↔ ch ∈ S)
    (hrange : ∀ x ∈ S, s ≤ x ∧ x < s + n) :
    (List.range' s n).filter p = S := by
  have hLsort : List.Pairwise (fun a b => a < b) ((List.range' s n).filter p) :=
    (List.pairwise_lt_range' s n).sublist (List.filter_sublist _)
  have hLnodup : ((List.range' s n).filter p).Nodup :=
    hLsort.imp (fun hab => Nat.ne_of_lt hab)
  have hSnodup : S.Nodup := hSsort.imp (fun hab => Nat.ne_of_lt hab)
  have hperm : ((List.range' s n).filter p).Perm S := by
    rw [List.perm_ext_iff_of_nodup hLnodup hSnodup]
    intro a
    rw [List.mem_filter, List.mem_range'_1, hmem a]
    constructor
    · intro h; exact h.2
    · intro h; exact ⟨hrange a h, h⟩
  exact List.eq_of_perm_of_sorted hperm
    (List.Sorted.le_of_lt hLsort) (List.Sorted.le_of_lt hSsort)

theorem origsFor_eq (u : UnicodeData) (key : String) (S : List Nat)
    (hSsort : List.Pairwise (fun a b => a < b) S)
    (hmem : ∀ ch, (genTarget u ch == some key) = true ↔ ch ∈ S)
    (hrange : ∀ x ∈ S, 1 ≤ x ∧ x < 65536) :
    origsFor u key = S := by
  unfold origsFor
  rw [range_drop_one]
  exact filter_range'_support _ S 1 (65536 - 1) hSsort hmem
    (by
      intro x hx
      have := hrange x hx
      exact ⟨this.1, by omega⟩)

theorem genTarget_miniUD (ch : Nat) :
    genTarget miniUD ch =
      if ch ∈ ([768, 769, 770, 771, 772, 776, 778] : List Nat) then some ""
      else if ch ∈ ([224, 225, 226, 227, 228, 229, 257] : List Nat) then some "a"
      else if ch ∈ ([232, 233, 234, 235] : List Nat) then some "e"
      else none := by
  by_cases h1 : ch ∈ ([768, 769, 770, 771, 772, 776, 778] : List Nat)
  · fin_cases h1 <;> decide
  · by_cases h2 : ch ∈ ([224, 225, 226, 227, 228, 229, 257] : List Nat)
    · fin_cases h2 <;> decide
    · by_cases h3 : ch ∈ ([232, 233, 234, 235] : List Nat)
      · fin_cases h3 <;> decide
      · have hcomb : miniUD.combining ch = false := by
          have : ¬ (miniUD.combining ch = true) := fun hc =>
            h1 (List.elem_iff.mp hc)
          simpa using this
        have hlow : miniUD.islower ch = false := by
          have : ¬ (miniUD.islower ch = true) := by
            intro hc
            have hm := List.elem_iff.mp hc
            simp only [List.mem_cons, List.not_mem_nil, or_false] at hm
            rcases hm with h | h | h | h | h | h | h | h | h | h | h <;> subst h <;>
              first
                | exact h2 (by decide)
                | exact h3 (by decide)
          simpa using this
        rw [if_neg h1, if_neg h2, if_neg h3]
        unfold genTarget
        rw [hcomb, hlow]
        rfl

theorem mem_genKeys (u : UnicodeData) (k : String) :
    k ∈ genKeys u ↔ ∃ ch, ch ∈ (List.range 65536).drop 1 ∧ genTarget u ch = some k := by
  unfold genKeys
  rw [(List.perm_insertionSort _ _).mem_iff, List.mem_dedup, List.mem_filterMap]

theorem mem_range_drop_one (N ch : Nat) :
    ch ∈ (List.range N).drop 1 ↔ 1 ≤ ch ∧ ch < N := by
  rw [range_drop_one, List.mem_range'_1]
  constructor
  · intro h
    exact ⟨h.1, by omega⟩
  · intro h
    exact ⟨h.1, by omega⟩

theorem genKeys_miniUD_mem (k : String) :
    k ∈ genKeys miniUD ↔ k = "" ∨ k = "a" ∨ k = "e" := by
  rw [mem_genKeys]
  constructor
  · rintro ⟨ch, hch, htgt⟩
    rw [genTarget_miniUD] at htgt
    split_ifs at htgt with hA hB hC
    · exact Or.inl (Option.some.inj htgt).symm
    · exact Or.inr (Or.inl (Option.some.inj htgt).symm)
    · exact Or.inr (Or.inr (Option.some.inj htgt).symm)
  · rintro (rfl | rfl | rfl)
    · exact ⟨768, (mem_range_drop_one 65536 768).mpr (by omega),
        by rw [genTarget_miniUD]; decide⟩
    · exact ⟨224, (mem_range_drop_one 65536 224).mpr (by omega),
        by rw [genTarget_miniUD]; decide⟩
    · exact ⟨232, (mem_range_drop_one 65536 232).mpr (by omega),
        by rw [genTarget_miniUD]; decide⟩

theorem foldl_if_const (g : String → Bool) :
    ∀ (keys : List String) (acc : Option String), (∀ key ∈ keys, g key = false) →
      keys.foldl (fun acc key => if g key then some key else acc) acc = acc := by
  intro keys
  induction keys with
  | nil => intro acc _; rfl
  | cons key keys ih =>
    intro acc hall
    rw [List.foldl_cons, if_neg (by simp [hall key (by simp)])]
    exact ih acc (fun k hk => hall k (by simp [hk]))

theorem foldl_if_unique (g : String → Bool) (k0 : String) :
    ∀ (keys : List String) (acc : Option String),
      (∀ key ∈ keys, (g key = true ↔ key = k0)) → k0 ∈ keys →
      keys.foldl (fun acc key => if g key then some key else acc) acc = some k0 := by
  intro keys
  induction keys with
  | nil => intro acc _ h; simp at h
  | cons key keys ih =>
    intro acc hiff hmem
    by_cases hk : key = k0
    · subst hk
      rw [List.foldl_cons, if_pos ((hiff key (by simp)).mpr rfl)]
      by_cases hmem' : key ∈ keys
      · exact ih (some key) (fun k hk2 => hiff k (by simp [hk2])) hmem'
      · apply foldl_if_const
        intro k hk2
        by_cases hgk : g k = true
        · exfalso
          have hkk := (hiff k (by simp [hk2])).mp hgk
          rw [hkk] at hk2
          exact hmem' hk2
        · simpa using hgk
    · have hmem' : k0 ∈ keys := by
        rcases List.mem_cons.mp hmem with h | h
        · exact absurd h.symm hk
        · exact h
      have hg : ¬ (g key = true) := fun hgk => hk ((hiff key (by simp)).mp hgk)
      rw [List.foldl_cons, if_neg hg]
      exact ih acc (fun k hk2 => hiff k (by simp [hk2])) hmem'

theorem canonOf_eq_none_of (u : UnicodeData) (ch : Nat)
    (h : ∀ key ∈ genKeys u,
      (decodeRow (rleEnc (deltaEnc 0 (origsFor u key)))).contains (ch : Int) = false) :
    canonOf u ch = none := by
  unfold canonOf
  exact foldl_if_const _ (genKeys u) none h

theorem canonOf_eq_some_of (u : UnicodeData) (ch : Nat) (k0 : String)
    (hk0 : k0 ∈ genKeys u)
    (h : ∀ key ∈ genKeys u,
      ((decodeRow (rleEnc (deltaEnc 0 (origsFor u key)))).contains (ch : Int) = true ↔
        key = k0)) :
    canonOf u ch = some k0 := by
  unfold canonOf
  exact foldl_if_unique _ k0 (genKeys u) none h hk0

theorem origsFor_miniUD_comb :
    origsFor miniUD "" = [768, 769, 770, 771, 772, 776, 778] := by
  apply origsFor_eq
  · decide
  · intro ch
    rw [genTarget_miniUD]
    split_ifs with hA hB hC
    · simp [hA]
    · fin_cases hB <;> decide
    · fin_cases hC <;> decide
    · simp [hA]
  · intro x hx
    fin_cases hx <;> exact ⟨by decide, by decide⟩

theorem origsFor_miniUD_a :
    origsFor miniUD "a" = [224, 225, 226, 227, 228, 229, 257] := by
  apply origsFor_eq
  · decide
  · intro ch
    rw [genTarget_miniUD]
    split_ifs with hA hB hC
    · fin_cases hA <;> decide
    · simp [hB]
    · fin_cases hC <;> decide
    · simp [hB]
  · intro x hx
    fin_cases hx <;> exact ⟨by decide, by decide⟩

theorem origsFor_miniUD_e :
    origsFor miniUD "e" = [232, 233, 234, 235] := by
  apply origsFor_eq
  · decide
  · intro ch
    rw [genTarget_miniUD]
    split_ifs with hA hB hC
    · fin_cases hA <;> decide
    · fin_cases hB <;> decide
    · simp [hC]
    · simp [hC]
  · intro x hx
    fin_cases hx <;> exact ⟨by decide, by decide⟩

theorem decodeRow_miniUD_comb :
    decodeRow (rleEnc (deltaEnc 0 [768, 769, 770, 771, 772, 776, 778])) =
      [768, 769, 770, 771, 772, 773, 773, 777, 779] := by
  norm_num [rleEnc, deltaEnc, decodeRow, jsDecodeDeltas, cumsum]

theorem decodeRow_miniUD_a :
    decodeRow (rleEnc (deltaEnc 0 [224, 225, 226, 227, 228, 229, 257])) =
      [224, 225, 226, 227, 228, 229, 230, 230, 258] := by
  norm_num [rleEnc, deltaEnc, decodeRow, jsDecodeDeltas, cumsum]

theorem decodeRow_miniUD_e :
    decodeRow (rleEnc (deltaEnc 0 [232, 233, 234, 235])) =
      [232, 233, 234, 235, 236, 236] := by
  norm_num [rleEnc, deltaEnc, decodeRow, jsDecodeDeltas, cumsum]

theorem canonOf_miniUD_257 : canonOf miniUD 257 = none := by
  apply canonOf_eq_none_of
  intro key hk
  rcases (genKeys_miniUD_mem key).mp hk with rfl | rfl | rfl
  · rw [origsFor_miniUD_comb, decodeRow_miniUD_comb]
    decide
  · rw [origsFor_miniUD_a, decodeRow_miniUD_a]
    decide
  · rw [origsFor_miniUD_e, decodeRow_miniUD_e]
    decide

theorem canonOf_miniUD_230 : canonOf miniUD 230 = some "a" := by
  apply canonOf_eq_some_of
  · exact (genKeys_miniUD_mem "a").mpr (Or.inr (Or.inl rfl))
  · intro key hk
    rcases (genKeys_miniUD_mem key).mp hk with rfl | rfl | rfl
    · rw [origsFor_miniUD_comb, decodeRow_miniUD_comb]
      decide
    · rw [origsFor_miniUD_a, decodeRow_miniUD_a]
      decide
    · rw [origsFor_miniUD_e, decodeRow_miniUD_e]
      decide

theorem canonOf_miniUD_233 : canonOf miniUD 233 = some "e" := by
  apply canonOf_eq_some_of
  · exact (genKeys_miniUD_mem "e").mpr (Or.inr (Or.inr rfl))
  · intro key hk
    rcases (genKeys_miniUD_mem key).mp hk with rfl | rfl | rfl
    · rw [origsFor_miniUD_comb, decodeRow_miniUD_comb]
      decide
    · rw [origsFor_miniUD_a, decodeRow_miniUD_a]
      decide
    · rw [origsFor_miniUD_e, decodeRow_miniUD_e]
      decide

theorem canonOf_miniUD_plain (ch : Nat)
    (h : ch ∈ ([99, 97, 102, 101] : List Nat)) : canonOf miniUD ch = none := by
  apply canonOf_eq_none_of
  intro key hk
  rcases (genKeys_miniUD_mem key).mp hk with rfl | rfl | rfl
  · rw [origsFor_miniUD_comb, decodeRow_miniUD_comb]
    fin_cases h <;> decide
  · rw [origsFor_miniUD_a, decodeRow_miniUD_a]
    fin_cases h <;> decide
  · rw [origsFor_miniUD_e, decodeRow_miniUD_e]
    fin_cases h <;> decide

theorem matchedSpec_predsOf_iff {Obj : Type} (qf : Quickfilter Obj) (i : Nat) :
    matchedSpec (predsOf qf) i = true ↔ ∀ f ∈ qf.filters, makePredicate f i = true := by
  unfold matchedSpec predsOf
  rw [List.all_eq_true]
  constructor
  · intro h f hf
    exact h (makePredicate f) (List.mem_map_of_mem _ hf)
  · intro h p hp
    rw [List.mem_map] at hp
    obtain ⟨f, hf, rfl⟩ := hp
    exact h f hf

/-- An engine state used by the concrete witnesses: two objects, one facet
with values x (selected, held by object 0) and y (held by object 1). -/
def qfEx : Quickfilter Nat :=
  { objects := [0, 1]
    filters := [{ objVals := [["x"], ["y"]]
                  values := [{ value := "x", selected := true, viable := true },
                             { value := "y", selected := false, viable := true }] }] }

/-- An engine state with a non-viable row at filter 0, row 1. -/
def qfNV : Quickfilter Nat :=
  { objects := [0]
    filters := [{ objVals := [["x"]]
                  values := [{ value := "x", selected := false, viable := true },
                             { value := "z", selected := false, viable := false }] }] }

/-- C3: Pass-all neutrality.  When no value of a categorical filter has its
selected flag set, `makePredicate` yields a predicate that is true for every
object index, whatever the size of the value domain — pass-all is the
neutral default, not match-nothing. -/
theorem c3_pass_all_neutrality (f : CategoricalUI)
    (h : ∀ r ∈ f.values, r.selected = false) (i : Nat) :
    makePredicate f i = true := by
  have hpa : isPassAll f = true := by
    unfold isPassAll
    rw [List.all_eq_true]
    intro r hr
    rw [h r hr]
    rfl
  unfold makePredicate
  rw [if_pos hpa]

/-- Witness for C3: a concrete two-value pass-all filter matches the object
indices 0 and 5. -/
theorem c3_pass_all_neutrality_witness :
    makePredicate { objVals := [["x"], ["y"]],
                    values := [{ value := "x", selected := false, viable := true },
                               { value := "y", selected := false, viable := true }] } 0
        = true ∧
    makePredicate { objVals := [["x"], ["y"]],
                    values := [{ value := "x", selected := false, viable := true },
                               { value := "y", selected := false, viable := true }] } 5
        = true :=
  ⟨c3_pass_all_neutrality _ (by decide) 0, c3_pass_all_neutrality _ (by decide) 5⟩

/-- C4: Short-circuit classification equivalence.  For every predicate list
and object index, the matched flag and single-miss attribution computed by
the short-circuiting loop (stop once 2 failures are seen, `classifyShort`)
equal the classification obtained by evaluating every predicate and counting
all failures (`matchedSpec` / `missedSpec`). -/
theorem c4_short_circuit_equivalence (preds : List (Nat → Bool)) (i : Nat) :
    ((classifyShort preds i).2 == 0) = matchedSpec preds i ∧
    (if (classifyShort preds i).2 == 1 then (classifyShort preds i).1 else none) =
      missedSpec preds i :=
  ⟨classifyShort_matched preds i, classifyShort_missed preds i⟩

/-- C2: Intersection correctness of the reported match vector.  On every
refresh the engine hands `onchange` the original object collection unchanged
together with a boolean vector of the same length, whose entry `i` is true
iff every filter's predicate holds for object `i`. -/
theorem c2_intersection_correctness {Obj : Type} (qf : Quickfilter Obj) :
    (qfRefresh qf).2.1 = qf.objects ∧
    (qfRefresh qf).2.2.length = qf.objects.length ∧
    (∀ i, i < qf.objects.length →
      ((qfRefresh qf).2.2.getD i false = true ↔
        ∀ f ∈ qf.filters, makePredicate f i = true)) := by
  refine ⟨rfl, ?_, ?_⟩
  · show (matchedOf qf).length = qf.objects.length
    unfold matchedOf
    rw [List.length_map, List.length_range]
  · intro i hi
    show (matchedOf qf).getD i false = true ↔ _
    unfold matchedOf
    rw [getD_map_range, if_pos hi, classifyShort_matched]
    exact matchedSpec_predsOf_iff qf i

/-- Witness for C2 at the concrete engine state `qfEx`, object index 0. -/
theorem c2_intersection_correctness_witness :
    (qfRefresh qfEx).2.2.getD 0 false = true ↔
      ∀ f ∈ qfEx.filters, makePredicate f 0 = true :=
  (c2_intersection_correctness qfEx).2.2 0 (by decide)

/-- C7: Sorted display domain.  The value rows a categorical filter builds at
construction carry exactly the distinct values occurring in some object's
projected value sequence, without duplicates, in lexicographically sorted
order. -/
theorem c7_sorted_display_domain {Obj : Type} (facet : Categorical Obj)
    (objects : List Obj) (sv : Option JVal) :
    List.Sorted (fun a b => a ≤ b)
        ((mkCategoricalUI facet objects sv).values.map (fun r => r.value)) ∧
    ((mkCategoricalUI facet objects sv).values.map (fun r => r.value)).Nodup ∧
    (∀ v, v ∈ (mkCategoricalUI facet objects sv).values.map (fun r => r.value) ↔
      ∃ o ∈ objects, v ∈ facet.proj o) := by
  rw [mkCategoricalUI_domain]
  refine ⟨List.sorted_insertionSort _ _, ?_, ?_⟩
  · rw [(List.perm_insertionSort _ _).nodup_iff]
    exact List.nodup_dedup _
  · intro v
    rw [(List.perm_insertionSort _ _).mem_iff, List.mem_dedup, List.mem_flatten]
    constructor
    · rintro ⟨l, hl, hv⟩
      rw [List.mem_map] at hl
      obtain ⟨o, ho, rfl⟩ := hl
      exact ⟨o, ho, hv⟩
    · rintro ⟨o, ho, hv⟩
      exact ⟨facet.proj o, List.mem_map_of_mem _ ho, hv⟩

/-- C8: Refresh idempotence.  Refreshing a just-refreshed engine with no
intervening selection change reproduces the identical state (hence identical
per-value viable flags) and the identical onchange payload (hence the
identical matched vector). -/
theorem c8_refresh_idempotence {Obj : Type} (qf : Quickfilter Obj) :
    qfRefresh ((qfRefresh qf).1) = qfRefresh qf := by
  show ({ (qfRefresh qf).1 with
      filters := refreshFilters (matchedOf (qfRefresh qf).1) (missedOf (qfRefresh qf).1)
        (qfRefresh qf).1.filters 0 },
    ((qfRefresh qf).1.objects, matchedOf (qfRefresh qf).1)) = qfRefresh qf
  rw [matchedOf_qfRefresh, missedOf_qfRefresh, qfRefresh_fst_filters, refreshFilters_idem]
  rfl

theorem refreshUI_values (f : CategoricalUI) (fi : Nat) (m : List Bool)
    (ms : List (Option Nat)) :
    (refreshUI f fi m ms).values =
      f.values.map (fun r =>
        { r with viable := (viableValsOf f fi m ms).contains r.value }) := rfl

theorem contains_eq_true_iff (l : List String) (a : String) :
    (l.contains a = true) ↔ a ∈ l :=
  List.elem_iff

theorem mem_viable_index_iff {Obj : Type} (qf : Quickfilter Obj) (fi i : Nat)
    (hfi : fi < qf.filters.length) :
    (i ∈ (List.range (matchedOf qf).length).filter
      (fun j => (matchedOf qf).getD j false || (missedOf qf).getD j none == some fi)) ↔
    (i < qf.objects.length ∧
      ((∀ f ∈ qf.filters, makePredicate f i = true) ∨
       (predAt (predsOf qf) fi i = false ∧
        ∀ pj, pj < qf.filters.length → pj ≠ fi → predAt (predsOf qf) pj i = true))) := by
  have hlenm : (matchedOf qf).length = qf.objects.length := by
    unfold matchedOf
    rw [List.length_map, List.length_range]
  have hfi' : fi < (predsOf qf).length := by
    unfold predsOf
    rw [List.length_map]
    exact hfi
  have hlenp : ∀ pj : Nat, (pj < (predsOf qf).length ↔ pj < qf.filters.length) := by
    intro pj
    unfold predsOf
    rw [List.length_map]
  rw [List.mem_filter, List.mem_range, hlenm]
  constructor
  · rintro ⟨hi, hcond⟩
    refine ⟨hi, ?_⟩
    unfold matchedOf missedOf at hcond
    rw [getD_map_range, getD_map_range, if_pos hi, if_pos hi, Bool.or_eq_true] at hcond
    rcases hcond with hm | hmx
    · left
      rw [classifyShort_matched] at hm
      exact (matchedSpec_predsOf_iff qf i).mp hm
    · right
      rw [beq_iff_eq, classifyShort_missed] at hmx
      have hchar := (missedSpec_eq_some_iff (predsOf qf) i fi hfi').mp hmx
      refine ⟨hchar.1, ?_⟩
      intro pj hpj hne
      exact hchar.2 pj ((hlenp pj).mpr hpj) hne
  · rintro ⟨hi, hcond⟩
    refine ⟨hi, ?_⟩
    unfold matchedOf missedOf
    rw [getD_map_range, getD_map_range, if_pos hi, if_pos hi, Bool.or_eq_true]
    rcases hcond with hm | hmx
    · left
      rw [classifyShort_matched]
      exact (matchedSpec_predsOf_iff qf i).mpr hm
    · right
      rw [beq_iff_eq, classifyShort_missed]
      apply (missedSpec_eq_some_iff (predsOf qf) i fi hfi').mpr
      refine ⟨hmx.1, ?_⟩
      intro pj hpj hne
      exact hmx.2 pj ((hlenp pj).mp hpj) hne

/-- C1: Viable-set soundness.  After a refresh, a value row of facet `fi` has
its viable flag set iff some object holds the row's value and that object
either passes every filter's predicate or fails exactly filter `fi` and no
other — with no pass-all assumption about filter `fi` itself. -/
theorem c1_viable_set_soundness {Obj : Type} (qf : Quickfilter Obj) (fi : Nat)
    (hfi : fi < qf.filters.length) (row : ValueRow)
    (hrow : row ∈ ((qfRefresh qf).1.filters.getD fi default).values) :
    row.viable = true ↔
      ∃ i, i < qf.objects.length ∧
        row.value ∈ (qf.filters.getD fi default).objVals.getD i [] ∧
        ((∀ f ∈ qf.filters, makePredicate f i = true) ∨
         (predAt (predsOf qf) fi i = false ∧
          ∀ pj, pj < qf.filters.length → pj ≠ fi →
            predAt (predsOf qf) pj i = true)) := by
  rw [qfRefresh_fst_filters, refreshFilters_getD, if_pos hfi, refreshUI_values,
    List.mem_map] at hrow
  obtain ⟨r0, hr0, rfl⟩ := hrow
  dsimp only
  rw [Nat.zero_add, contains_eq_true_iff]
  unfold viableValsOf
  rw [List.mem_flatMap]
  constructor
  · rintro ⟨i, hi, hv⟩
    have hchar := (mem_viable_index_iff qf fi i hfi).mp hi
    exact ⟨i, hchar.1, hv, hchar.2⟩
  · rintro ⟨i, hi1, hv, hcond⟩
    exact ⟨i, (mem_viable_index_iff qf fi i hfi).mpr ⟨hi1, hcond⟩, hv⟩

/-- Witness for C1 at the concrete engine `qfEx`, facet 0, row x. -/
theorem c1_viable_set_soundness_witness :
    ({ value := "x", selected := true, viable := true } : ValueRow).viable = true ↔
      ∃ i, i < qfEx.objects.length ∧
        ({ value := "x", selected := true, viable := true } : ValueRow).value ∈
          (qfEx.filters.getD 0 default).objVals.getD i [] ∧
        ((∀ f ∈ qfEx.filters, makePredicate f i = true) ∨
         (predAt (predsOf qfEx) 0 i = false ∧
          ∀ pj, pj < qfEx.filters.length → pj ≠ 0 →
            predAt (predsOf qfEx) pj i = true)) :=
  c1_viable_set_soundness qfEx 0 (by decide)
    { value := "x", selected := true, viable := true } (by decide)

theorem getD_set_filters (l : List CategoricalUI) (fi fj : Nat) (x : CategoricalUI) :
    (l.set fi x).getD fj default =
      if fi = fj ∧ fi < l.length then x else l.getD fj default := by
  rw [List.getD_eq_getElem?_getD, List.getElem?_set]
  by_cases hij : fi = fj
  · by_cases hlen : fi < l.length
    · rw [if_pos hij, if_pos hlen, if_pos ⟨hij, hlen⟩]
      rfl
    · rw [if_pos hij, if_neg hlen, if_neg (fun hcon => hlen hcon.2)]
      subst hij
      rw [List.getD_eq_default l default (Nat.le_of_not_lt hlen)]
      rfl
  · rw [if_neg hij, if_neg (fun hcon => hij hcon.1), ← List.getD_eq_getElem?_getD]

theorem viable_bounds {Obj : Type} (qf : Quickfilter Obj) (fi vi : Nat)
    (h : ((qf.filters.getD fi default).values.getD vi defaultRow).viable = true) :
    fi < qf.filters.length ∧ vi < (qf.filters.getD fi default).values.length := by
  constructor
  · by_contra hfi
    rw [List.getD_eq_default _ _ (Nat.le_of_not_lt hfi)] at h
    have hdv : (default : CategoricalUI).values = [] := rfl
    rw [hdv] at h
    simp [defaultRow] at h
  · by_contra hvi
    rw [List.getD_eq_default _ _ (Nat.le_of_not_lt hvi)] at h
    simp [defaultRow] at h

/-- C10: Refresh preserves selection state; a click toggles exactly one
row's selected flag and is ignored when the row is non-viable.  Part one:
every refresh leaves every row's selected flag unchanged.  Part two: a click
on a non-viable row leaves the whole engine state unchanged.  Part three: a
click on a viable row flips exactly that row's selected flag and no other. -/
theorem c10_selection_frame {Obj : Type} :
    (∀ (qf : Quickfilter Obj) (a b : Nat),
      selectedAt (qfRefresh qf).1 a b = selectedAt qf a b) ∧
    (∀ (qf : Quickfilter Obj) (fi vi : Nat),
      ((qf.filters.getD fi default).values.getD vi defaultRow).viable = false →
        clickRow qf fi vi = qf) ∧
    (∀ (qf : Quickfilter Obj) (fi vi : Nat),
      ((qf.filters.getD fi default).values.getD vi defaultRow).viable = true →
        ∀ fj vj : Nat,
          selectedAt (clickRow qf fi vi) fj vj =
            if fj = fi ∧ vj = vi then !(selectedAt qf fi vi)
            else selectedAt qf fj vj) := by
  refine ⟨selectedAt_qfRefresh, ?_, ?_⟩
  · intro qf fi vi h
    unfold clickRow
    rw [if_pos (by rw [h]; rfl)]
  · intro qf fi vi h fj vj
    have hb := viable_bounds qf fi vi h
    unfold clickRow
    rw [if_neg (by rw [h]; exact Bool.noConfusion)]
    rw [selectedAt_qfRefresh]
    unfold selectedAt
    show (((qf.filters.set fi
        { objVals := (qf.filters.getD fi default).objVals,
          values := toggleValues (qf.filters.getD fi default).values vi }).getD fj
        default).values.getD vj defaultRow).selected = _
    rw [getD_set_filters]
    by_cases hfj : fi = fj
    · rw [if_pos ⟨hfj, hb.1⟩]
      subst hfj
      show ((toggleValues (qf.filters.getD fi default).values vi).getD vj
        defaultRow).selected = _
      rw [toggleValues_getD]
      by_cases hvj : vj = vi
      · subst hvj
        rw [if_pos ⟨rfl, hb.2⟩, if_pos ⟨rfl, rfl⟩]
      · rw [if_neg (fun hcon => hvj hcon.1), if_neg (fun hcon => hvj hcon.2)]
    · rw [if_neg (fun hcon => hfj hcon.1), if_neg (fun hcon => hfj hcon.1.symm)]

/-- Witness for C10: a click on the non-viable row (0,1) of `qfNV` is
ignored, and a click on the viable row (0,0) of `qfEx` toggles exactly that
row's selected flag. -/
theorem c10_selection_frame_witness :
    clickRow qfNV 0 1 = qfNV ∧
    (∀ fj vj : Nat,
      selectedAt (clickRow qfEx 0 0) fj vj =
        if fj = 0 ∧ vj = 0 then !(selectedAt qfEx 0 0)
        else selectedAt qfEx fj vj) :=
  ⟨(c10_selection_frame).2.1 qfNV 0 1 (by decide),
   (c10_selection_frame).2.2 qfEx 0 0 (by decide)⟩

/-- A padding facet used by `List.getD` in the statements below. -/
def emptyFacet {Obj : Type} : Categorical Obj :=
  { name := "", proj := fun _ => [], initial := [] }

theorem getD_map_of_lt {α β : Type} (g : α → β) (l : List α) (i : Nat) (d : α)
    (d' : β) (h : i < l.length) : (l.map g).getD i d' = g (l.getD i d) := by
  rw [List.getD_eq_getElem?_getD, List.getElem?_map, List.getElem?_eq_getElem h,
    List.getD_eq_getElem?_getD, List.getElem?_eq_getElem h]
  rfl

/-- The object collection used by the concrete construction examples. -/
def exObjs : List Nat := [0]

/-- A facet list with two facets sharing the name dup. -/
def dupFacets : List (Categorical Nat) :=
  [{ name := "dup", proj := fun _ => ["x"], initial := [] },
   { name := "dup", proj := fun _ => ["y"], initial := [] }]

/-- C5 counterexample: constructing a Quickfilter over two facets that share
the name dup completes normally — it returns a state with one filter per
facet instead of failing fast. -/
theorem c5_duplicate_names_counterexample :
    (mkQuickfilter exObjs dupFacets none).map (fun qf => qf.filters.length) =
      .ok 2 := rfl

/-- C5 amended: duplicate facet names are tolerated silently at
construction.  Whenever the facet list contains two facets with the same
name, construction still succeeds (for any saved state whose parse result is
not a top-level JSON null) and builds one filter per facet. -/
theorem c5_duplicate_names_tolerated {Obj : Type} (objects : List Obj)
    (facets : List (Categorical Obj)) (parsed : Option JVal)
    (hdup : ∃ i j, i < j ∧ j < facets.length ∧
      (facets.getD i emptyFacet).name = (facets.getD j emptyFacet).name)
    (hsv : parsed.getD (.obj []) ≠ .null) :
    ∃ qf, mkQuickfilter objects facets parsed = .ok qf ∧
      qf.filters.length = facets.length := by
  refine ⟨_, mkQuickfilter_ok objects facets parsed hsv, ?_⟩
  rw [qfRefresh_fst_filters, refreshFilters_length, List.length_map]

/-- Witness for C5 amended at the concrete duplicate-name configuration. -/
theorem c5_duplicate_names_tolerated_witness :
    ∃ qf, mkQuickfilter exObjs dupFacets none = .ok qf ∧
      qf.filters.length = dupFacets.length :=
  c5_duplicate_names_tolerated exObjs dupFacets none
    ⟨0, 1, by decide, by decide, rfl⟩ (by simp)

/-- C6 counterexample: a persisted state whose text parses to the JSON value
null — well-formed JSON of the wrong shape — makes construction raise a
TypeError instead of degrading silently, because the per-facet read
savedState[name] is outside the try/catch. -/
theorem c6_null_state_counterexample :
    mkQuickfilter exObjs
      [{ name := "color", proj := fun _ => ["x"], initial := [] }]
      (some JVal.null) = .error () := rfl

/-- C6 amended: for every persisted-state input whose parse result is not a
top-level JSON null — unparseable text, other wrong shapes, missing or
unknown facet entries, absent or non-boolean per-value entries —
construction succeeds without propagating any error, and each value's
selected flag is the boolean found by the own-property reads
savedState[name][value] (object fields, and indexed entries of arrays and
strings alike) when those reads yield a boolean, otherwise true iff the
value is in the facet's initial-selection set. -/
theorem c6_saved_state_degradation {Obj : Type} (objects : List Obj)
    (facets : List (Categorical Obj)) (parsed : Option JVal)
    (hsv : parsed.getD (.obj []) ≠ .null) :
    ∃ qf, mkQuickfilter objects facets parsed = .ok qf ∧
      qf.filters.length = facets.length ∧
      ∀ fi, fi < facets.length →
        ∀ r ∈ (qf.filters.getD fi default).values,
          r.selected =
            (savedBoolAt (parsed.getD (.obj []))
                (facets.getD fi emptyFacet).name r.value).getD
              ((facets.getD fi emptyFacet).initial.contains r.value) := by
  refine ⟨_, mkQuickfilter_ok objects facets parsed hsv, ?_, ?_⟩
  · rw [qfRefresh_fst_filters, refreshFilters_length, List.length_map]
  · intro fi hfi r hr
    rw [qfRefresh_fst_filters, refreshFilters_getD,
      if_pos (by rw [List.length_map]; exact hfi), refreshUI_values,
      List.mem_map] at hr
    obtain ⟨r0, hr0, rfl⟩ := hr
    dsimp only
    rw [getD_map_of_lt _ facets fi emptyFacet default hfi] at hr0
    have hsel := mkCategoricalUI_selected (facets.getD fi emptyFacet) objects
      (svLookup (parsed.getD (.obj [])) (facets.getD fi emptyFacet).name) r0 hr0
    rw [hsel]
    exact initSelected_spec (parsed.getD (.obj []))
      (facets.getD fi emptyFacet).name (facets.getD fi emptyFacet).initial r0.value

/-- The saved state used by the C6 witness: the facet color with value x
saved as selected in an object entry, and the facet size with value 0 saved
as selected through the indexed own property of an array entry. -/
def exSaved : Option JVal :=
  some (JVal.obj [("color", JVal.obj [("x", JVal.bool true)]),
                  ("size", JVal.arr [JVal.bool true])])

/-- The facet list used by the C6 witness. -/
def exFacets : List (Categorical Nat) :=
  [{ name := "color", proj := fun _ => ["x", "y"], initial := ["y"] },
   { name := "size", proj := fun _ => ["0", "2"], initial := ["2"] }]

/-- Witness for C6 amended at a concrete saved state with an object-shaped
boolean entry, an array-shaped boolean entry, and initial-selection
fallbacks for the values the saved state misses. -/
theorem c6_saved_state_degradation_witness :
    ∃ qf, mkQuickfilter exObjs exFacets exSaved = .ok qf ∧
      qf.filters.length = exFacets.length ∧
      ∀ fi, fi < exFacets.length →
        ∀ r ∈ (qf.filters.getD fi default).values,
          r.selected =
            (savedBoolAt (exSaved.getD (.obj []))
                (exFacets.getD fi emptyFacet).name r.value).getD
              ((exFacets.getD fi emptyFacet).initial.contains r.value) :=
  c6_saved_state_degradation exObjs exFacets exSaved (by simp [exSaved])

theorem accentFold_nil (u : UnicodeData) : accentFold u [] = [] := rfl

theorem accentFold_cons (u : UnicodeData) (ch : Nat) (s : List Nat) :
    accentFold u (ch :: s) =
      (match canonOf u ch with
       | some key => key.toList.map (fun c => c.toNat)
       | none => [ch]) ++ accentFold u s := by
  unfold accentFold
  rw [List.flatMap_cons]

theorem accentFold_cons_none (u : UnicodeData) (ch : Nat) (s : List Nat)
    (h : canonOf u ch = none) :
    accentFold u (ch :: s) = ch :: accentFold u s := by
  rw [accentFold_cons, h]
  rfl

theorem accentFold_cons_some (u : UnicodeData) (ch : Nat) (s : List Nat)
    (key : String) (h : canonOf u ch = some key) :
    accentFold u (ch :: s) = key.toList.map (fun c => c.toNat) ++ accentFold u s := by
  rw [accentFold_cons, h]

/-- C9: Accent folding contract, evaluated at the failing input exposed by
the run-length decoder.  The letter ā (code point 257) is lowercase, not
combining, and its NFKD decomposition stripped of combining marks is exactly
the ASCII letter a (code 97), so the claimed contract requires the generated
fold function to map it to a.  Instead the generated decoder expands the
encoded run of the a-row ([224, 1, -5, 28]) to the codes
224-230, 230, 258 — one extra repetition plus a spurious zero delta — so the
fold table misses 257 (ā passes through unchanged) and wrongly contains 230
(æ, which has no decomposition, folds to a).  The example
fold("café") = fold("cafe") = "cafe" from the claim still holds, because
é sits before the first long run of its row. -/
theorem c9_accent_fold_bug :
    miniUD.islower 257 = true ∧
    miniUD.combining 257 = false ∧
    strippedNFKD miniUD 257 = [97] ∧
    isAsciiAlpha 97 = true ∧
    origsFor miniUD "a" = [224, 225, 226, 227, 228, 229, 257] ∧
    rleEnc (deltaEnc 0 (origsFor miniUD "a")) = [224, 1, -5, 28] ∧
    decodeRow [224, 1, -5, 28] = [224, 225, 226, 227, 228, 229, 230, 230, 258] ∧
    canonOf miniUD 257 = none ∧
    accentFold miniUD [257] = [257] ∧
    canonOf miniUD 230 = some "a" ∧
    strippedNFKD miniUD 230 = [230] ∧
    accentFold miniUD [99, 97, 102, 233] = [99, 97, 102, 101] ∧
    accentFold miniUD [99, 97, 102, 101] = [99, 97, 102, 101] := by
  refine ⟨by decide, by decide, by decide, by decide, origsFor_miniUD_a, ?_, ?_,
    canonOf_miniUD_257, ?_, canonOf_miniUD_230, by decide, ?_, ?_⟩
  · rw [origsFor_miniUD_a]
    norm_num [rleEnc, deltaEnc]
  · norm_num [decodeRow, jsDecodeDeltas, cumsum]
  · rw [accentFold_cons_none miniUD 257 [] canonOf_miniUD_257, accentFold_nil]
  · rw [accentFold_cons_none miniUD 99 _ (canonOf_miniUD_plain 99 (by decide)),
      accentFold_cons_none miniUD 97 _ (canonOf_miniUD_plain 97 (by decide)),
      accentFold_cons_none miniUD 102 _ (canonOf_miniUD_plain 102 (by decide)),
      accentFold_cons_some miniUD 233 _ "e" canonOf_miniUD_233, accentFold_nil]
    rfl
  · rw [accentFold_cons_none miniUD 99 _ (canonOf_miniUD_plain 99 (by decide)),
      accentFold_cons_none miniUD 97 _ (canonOf_miniUD_plain 97 (by decide)),
      accentFold_cons_none miniUD 102 _ (canonOf_miniUD_plain 102 (by decide)),
      accentFold_cons_none miniUD 101 _ (canonOf_miniUD_plain 101 (by decide)),
      accentFold_nil]
